import Mathlib

/-!
Verification development for the gorilla-core utility excerpt:
`gorilla/utils/path.py` (scandir, symlink, find_vcs_root) and
`gorilla/config/backup.py` (backup).

The Python code is shallowly embedded: directory trees become explicit
lists of entries, the filesystem effects of each function become pure
state-passing functions, and Python exceptions become explicit error
values.  String operations used by the Python code (`str.split`,
`str.startswith`, `str.endswith`, glob/fnmatch pattern matching for the
pattern shapes the code actually produces) are re-implemented over
`String.data` so that every definition evaluates by kernel reduction.
-/

namespace Gorilla

/-! ### String helpers mirroring the Python string operations used -/

/-- Python `s.startswith(t)` for a single string `t`. -/
def strStarts (s t : String) : Bool :=
  t.data.isPrefixOf s.data

/-- Python `s.endswith(t)` for a single string `t`. -/
def strEnds (s t : String) : Bool :=
  t.data.isSuffixOf s.data

/-- Python `s.split(sep)` for a one-character separator `sep`
(e.g. `name.split("/")`), including empty segments. -/
def splitCharAux (sep : Char) : List Char → List Char → List (List Char)
  | [], cur => [cur.reverse]
  | c :: cs, cur =>
    if c = sep then cur.reverse :: splitCharAux sep cs []
    else splitCharAux sep cs (c :: cur)

def splitChar (sep : Char) (s : String) : List String :=
  (splitCharAux sep s.data []).map (fun l => ⟨l⟩)

/-- Python `s.split(sep)[-1]`: the text after the last occurrence of
`sep` (the whole string when `sep` does not occur). -/
def lastSeg (sep : Char) (s : String) : String :=
  ⟨(s.data.reverse.takeWhile (fun c => !(c = sep : Bool))).reverse⟩

/-- Python `s.startswith(".")`: the leading character is a dot. -/
def isHidden (s : String) : Bool :=
  match s.data with
  | c :: _ => c = '.'
  | [] => false

/-- Does the string contain a dot somewhere? (`glob` pattern piece
`*.*` matches exactly the non-hidden names containing a dot.) -/
def hasDot (s : String) : Bool :=
  s.data.any (fun c => c = '.')

/-- `fnmatch.fnmatch(name, pat)` for the patterns `shutil.ignore_patterns`
receives from `backup`: every such pattern is `"*." + extension` — a
literal suffix preceded by a single `*`.  For these patterns (whose
literal part contains no further wildcard, which holds for the
extensions of ordinary file names) fnmatch is exactly a suffix test. -/
def fnmatchStar (pat name : String) : Bool :=
  match pat.data with
  | '*' :: rest => rest.isSuffixOf name.data
  | _ => false

/-! ### DirectoryScanner: `scandir` / `_scandir` from gorilla/utils/path.py

A directory listing is a list of entries in `os.scandir` order; each
entry has a name and is either a regular file or not (a directory).
The inner generator `_scandir` walks the entries.  Crucially, the
recursive call in the source,

    yield from _scandir(entry.path, suffix=suffix, recursive=recursive)

omits the required positional argument `prefix` of
`def _scandir(dir_path, prefix, suffix, recursive)`, so evaluating it
raises `TypeError` the moment any entry reaches the `else` branch with
`recursive=True`.  The embedding reflects that: reaching the `else`
branch with `recursive = true` produces `ScanErr.typeError`, and
consuming the generator to a list surfaces the error (Python's
`list(...)` of a generator that raises returns nothing). -/

structure SEntry where
  name : String
  isFile : Bool
deriving DecidableEq

inductive ScanErr where
  | typeError
deriving DecidableEq

/-- The `if (prefix is None) and (suffix is None) ... elif ...` chain of
`_scandir` deciding whether a relative path is yielded.  A Python
`str`-or-tuple filter argument is embedded as a list of strings
(`rel.startswith(tup)` is true iff some element matches; a single
string behaves as the one-element tuple). -/
def yieldCheck (pfx sfx : Option (List String)) (rel : String) : Bool :=
  match pfx, sfx with
  | none, none => true
  | some ps, none => ps.any (fun p => strStarts rel p)
  | none, some ss => ss.any (fun s => strEnds rel s)
  | some ps, some ss =>
    ps.any (fun p => strStarts rel p) && ss.any (fun s => strEnds rel s)

/-- The prefix condition as the spec states it: vacuous when no prefix
is given, otherwise the relative path starts with (one of) it. -/
def pfxOk (pfx : Option (List String)) (rel : String) : Bool :=
  match pfx with
  | none => true
  | some ps => ps.any (fun p => strStarts rel p)

/-- The suffix condition as the spec states it: vacuous when no suffix
is given, otherwise the relative path ends with (one of) it. -/
def sfxOk (sfx : Option (List String)) (rel : String) : Bool :=
  match sfx with
  | none => true
  | some ss => ss.any (fun s => strEnds rel s)

/-- `_scandir` consumed into a list.  For direct children of the root
the relative path equals the entry name.  The `else` branch with
`recursive=True` evaluates the recursive call, which raises
`TypeError` (missing positional argument `prefix`); with
`recursive=False` it is `continue`. -/
def scandirGo (pfx sfx : Option (List String)) (recursive : Bool) :
    List SEntry → Except ScanErr (List String)
  | [] => .ok []
  | e :: rest =>
    if !isHidden e.name && e.isFile then
      match scandirGo pfx sfx recursive rest with
      | .error err => .error err
      | .ok l => .ok ((if yieldCheck pfx sfx e.name then [e.name] else []) ++ l)
    else
      if recursive then .error .typeError
      else scandirGo pfx sfx recursive rest

/-- `scandir(dir_path, prefix, suffix, recursive)` on a root whose
listing is `entries` (the argument-type validation of the wrapper is
enforced by the Lean types). -/
def scandir (pfx sfx : Option (List String)) (recursive : Bool)
    (entries : List SEntry) : Except ScanErr (List String) :=
  scandirGo pfx sfx recursive entries

/-! ### `symlink` from gorilla/utils/path.py

The relevant slice of the filesystem is an association list from path
strings to entries (regular file, directory, or symbolic link with its
target).  `os.path.lexists` is key membership (it is true for broken
links too, since it does not follow the link).  `os.remove` deletes a
file or a link but raises `IsADirectoryError` on a directory;
`os.symlink` raises `FileExistsError` when the link name already
exists (in any form, broken links included).  Each operation returns
the (possibly unchanged) filesystem together with an optional raised
error, so that a failed call demonstrably leaves the state intact. -/

inductive FsEntry where
  | file
  | dir
  | link (target : String)
deriving DecidableEq

abbrev LinkFS := List (String × FsEntry)

/-- `os.path.lexists(p)`. -/
def lexists (fs : LinkFS) (p : String) : Bool :=
  fs.any (fun e => e.1 = p)

/-- What the filesystem holds at `p`, if anything. -/
def fsGet (fs : LinkFS) (p : String) : Option FsEntry :=
  (fs.find? (fun e => e.1 = p)).map (fun e => e.2)

/-- Delete the entry at `p` (helper for `os.remove`). -/
def removeKey (fs : LinkFS) (p : String) : LinkFS :=
  fs.filter (fun e => !(e.1 = p : Bool))

inductive OsErr where
  | fileExists
  | isADirectory
  | fileNotFound
deriving DecidableEq

/-- `os.remove(p)`: removes a file or symlink, raises on a directory
or a missing path. -/
def osRemove (fs : LinkFS) (p : String) : LinkFS × Option OsErr :=
  match fsGet fs p with
  | none => (fs, some .fileNotFound)
  | some .dir => (fs, some .isADirectory)
  | some _ => (removeKey fs p, none)

/-- `os.symlink(src, dst)`: creates the link, raises `FileExistsError`
when `dst` already exists in any form. -/
def osSymlink (src dst : String) (fs : LinkFS) : LinkFS × Option OsErr :=
  if lexists fs dst then (fs, some .fileExists)
  else ((dst, .link src) :: fs, none)

/-- `symlink(src, dst, overwrite)` from gorilla/utils/path.py:

    if osp.lexists(dst) and overwrite:
        os.remove(dst)
    os.symlink(src, dst)

An error raised by `os.remove` propagates (the link is not created). -/
def symlink (src dst : String) (overwrite : Bool) (fs : LinkFS) :
    LinkFS × Option OsErr :=
  if lexists fs dst && overwrite then
    match osRemove fs dst with
    | (fs1, none) => osSymlink src dst fs1
    | (fs1, some e) => (fs1, some e)
  else osSymlink src dst fs

/-! ### `find_vcs_root` from gorilla/utils/path.py

Absolute paths are lists of components (`[]` is the filesystem root
`/`; `osp.split(cur)[0]` is `List.dropLast`, which fixes `/`).  The
filesystem is the list of existing absolute paths, each flagged as
regular file or not; `osp.exists` is membership and `osp.isfile`
membership with the flag set.  The `while cur != prev` loop is embedded
with explicit fuel so that its termination is a theorem rather than an
assumption: `vcsGo` returns `none` exactly when the fuel runs out. -/

structure VFS where
  paths : List (List String × Bool)
deriving DecidableEq

/-- `osp.exists` on an absolute component path. -/
def VFS.exs (fs : VFS) (p : List String) : Bool :=
  fs.paths.any (fun e => e.1 = p)

/-- `osp.isfile` on an absolute component path. -/
def VFS.isfile (fs : VFS) (p : List String) : Bool :=
  fs.paths.any (fun e => e.1 = p && e.2)

/-- `any(osp.exists(osp.join(cur, marker)) for marker in markers)`. -/
def hasMarker (fs : VFS) (markers : List String) (cur : List String) : Bool :=
  markers.any (fun m => fs.exs (cur ++ [m]))

/-- The `while cur != prev:` loop of `find_vcs_root`, with fuel.
`some r` means the loop terminated with Python return value `r`
(`some d` a found root, `none` the final `return None`); the outer
`none` means the fuel was exhausted. -/
def vcsGo (fs : VFS) (markers : List String) :
    Nat → Option (List String) → List String → Option (Option (List String))
  | 0, _, _ => none
  | fuel + 1, prev, cur =>
    if prev = some cur then some none
    else if hasMarker fs markers cur then some (some cur)
    else vcsGo fs markers fuel (some cur) cur.dropLast

/-- `find_vcs_root(path, markers)`: when `path` is a file, start from
its parent directory; run the loop with `prev, cur = None, path`.  The
fuel `start.length + 2` is enough for the loop to reach its fixpoint,
as proved below. -/
def find_vcs_root (fs : VFS) (markers : List String) (path : List String) :
    Option (Option (List String)) :=
  let start := if fs.isfile path then path.dropLast else path
  vcsGo fs markers (start.length + 2) none start

/-- All upward prefixes of a path, nearest (the path itself) first,
ending with `[]` (the filesystem root). -/
def upwardChain (p : List String) : List (List String) :=
  (List.range (p.length + 1)).reverse.map (fun k => p.take k)

/-- Reference characterization of `find_vcs_root`: the nearest upward
prefix containing one of the markers, if any. -/
def nearestRoot (fs : VFS) (markers : List String) (start : List String) :
    Option (List String) :=
  (upwardChain start).find? (fun c => hasMarker fs markers c)

/-! ### `backup` from gorilla/config/backup.py

A backup source is the path string passed in `backup_list` together
with what the filesystem holds there: whether `osp.exists` /
`osp.isfile` / `osp.isdir` are true, and — for a directory — its
subtree as a list of entries, each a path relative to the source
(a non-empty list of name components) flagged as directory or file.
Sources are read-only during the call; the destination is modelled as
the list of file paths (component lists, relative to `backup_dir`)
present under the destination after the call.

Per directory source the code computes

    files = glob.iglob(osp.join(name, "**", "*.*"), recursive=True)
    ignore_suffix = set(map(lambda x: "*." + x.split("/")[-1].split(".")[-1], files))
    for suffix in contain_suffix:
        ignore_suffix.remove(suffix)
    shutil.copytree(name, osp.join(backup_dir, name),
                    ignore=shutil.ignore_patterns(*ignore_suffix))

`glob` with `**/*.*` matches every entry (file or directory) whose
basename contains a dot, is not hidden, and lies under no hidden
component (glob wildcards never match a leading dot); `set(...)` is a
deduplicated collection; `set.remove` raises `KeyError` on an absent
element; `ignore_patterns` prunes, at every level of the copy, every
entry whose basename fnmatches one of the remaining `"*.<ext>"`
patterns (fnmatch has no hidden-name special case). -/

structure FEntry where
  path : List String
  isDir : Bool
deriving DecidableEq

/-- The observed extension pattern `"*." + x.split("/")[-1].split(".")[-1]`
of a glob match whose relative component path is `p`. -/
def patOf (p : List String) : String :=
  "*." ++ lastSeg '.' (p.getLastD "")

/-- Is the entry matched by `glob(name + "/**/*.*", recursive=True)`?
No component may be hidden and the basename must contain a dot. -/
def globVisible (e : FEntry) : Bool :=
  !(e.path = ([] : List String) : Bool) &&
    e.path.all (fun c => !isHidden c) && hasDot (e.path.getLastD "")

/-- Duplicate removal (first occurrence kept) with an accumulator of
already-seen elements: `set(...)` holds each element once, and which
ordering the list carries is irrelevant to the set semantics used. -/
def dedupF : List String → List String → List String
  | [], _ => []
  | x :: xs, seen => if x ∈ seen then dedupF xs seen else x :: dedupF xs (x :: seen)

/-- The Python set `ignore_suffix` before the removal loop, as a
deduplicated list. -/
def globObserved (entries : List FEntry) : List String :=
  dedupF ((entries.filter globVisible).map (fun e => patOf e.path)) []

/-- The loop `for suffix in contain_suffix: ignore_suffix.remove(suffix)`.
`set.remove` raises `KeyError` on an element that is not present; the
error value carries the offending pattern. -/
def removeAll : List String → List String → Except String (List String)
  | [], s => .ok s
  | x :: xs, s => if x ∈ s then removeAll xs (s.erase x) else .error x

/-- Does a copied relative path survive `shutil.ignore_patterns(*ign)`?
`copytree` filters basenames at every level, so every component of the
path must avoid every remaining pattern. -/
def survives (ign : List String) (p : List String) : Bool :=
  p.all (fun c => ign.all (fun pat => !fnmatchStar pat c))

/-- The files `shutil.copytree` places under `backup_dir/<name>` for a
directory source with subtree `entries`, as paths relative to the
copied root — or the `KeyError` pattern raised by the removal loop. -/
def dirCopyFiles (entries : List FEntry) (contain_suffix : List String) :
    Except String (List (List String)) :=
  match removeAll contain_suffix (globObserved entries) with
  | .error pat => .error pat
  | .ok ign =>
    .ok ((entries.filter (fun e => !e.isDir && survives ign e.path)).map
      (fun e => e.path))

/-- Reference reading of the specification sentence for the directory
copy ("exactly the files of T whose extension matches a pattern in
`allowedSuffixes`"): the files whose basename matches one of the
allowed patterns. -/
def specAllowedFiles (entries : List FEntry) (contain_suffix : List String) :
    List (List String) :=
  (entries.filter (fun e =>
    !e.isDir && contain_suffix.any (fun pat => fnmatchStar pat (e.path.getLastD "")))).map
    (fun e => e.path)

/-- One entry of `backup_list` together with what the filesystem holds
at that path. -/
structure Source where
  name : String
  pres : Bool
  isFile : Bool
  isDir : Bool
  entries : List FEntry
deriving DecidableEq

/-- The Python exceptions `backup` can raise.  `fileExistsError` is the
(confusingly named) `raise FileExistsError(f"{name} not exist")` for a
missing source in strict mode; `keyError` is the `set.remove` failure;
`attributeError` is `None.info` when no logger was supplied. -/
inductive PyErr where
  | attributeError
  | fileExistsError (name : String)
  | keyError (pat : String)
deriving DecidableEq

structure BackupResult where
  dest : List (List String)
  warnings : List String
  err : Option PyErr
deriving DecidableEq

/-- One iteration of the `for name in backup_list:` loop: the new
destination content, the warnings this iteration emits, and the
exception it raises, if any.  The source order is kept: the strict
missing-source raise comes before any warning or copy; the missing
warning precedes the dangerous-name warning; the file copy (basename
only) precedes the directory check; the directory copy first runs the
`KeyError`-prone removal loop and only then copies. -/
def processOne (strict : Bool) (contain_suffix : List String) (s : Source)
    (dest : List (List String)) :
    List (List String) × List String × Option PyErr :=
  -- miss_flag = not osp.exists(name); in strict mode raise before any copy
  if !s.pres && strict then (dest, [], some (.fileExistsError s.name))
  else
    let w1 := if !s.pres then [s.name ++ " not exist"] else []
    let w2 := if s.name = "data" || s.name = "log" then
        ["'" ++ s.name ++ "' maybe the unsuitable to backup"] else []
    -- if osp.isfile(name): shutil.copy(name, join(backup_dir, name.split("/")[-1]))
    let dest1 := if s.isFile then dest ++ [[lastSeg '/' s.name]] else dest
    -- if osp.isdir(name): filtered copytree to join(backup_dir, name)
    if s.isDir then
      match dirCopyFiles s.entries contain_suffix with
      | .error pat => (dest1, w1 ++ w2, some (.keyError pat))
      | .ok fsl =>
        (dest1 ++ fsl.map (fun p => splitChar '/' s.name ++ p), w1 ++ w2, none)
    else (dest1, w1 ++ w2, none)

/-- The whole `for name in backup_list:` loop.  `dest` is the
accumulated destination content; the returned result carries the
destination as left by the loop (a raise does not roll copies back),
the warnings emitted from this point on, and the raised exception if
any (which stops the loop). -/
def processList (strict : Bool) (contain_suffix : List String) :
    List Source → List (List String) → BackupResult
  | [], dest => ⟨dest, [], none⟩
  | s :: rest, dest =>
    match processOne strict contain_suffix s dest with
    | (d1, w, some e) => ⟨d1, w, some e⟩
    | (d1, w, none) =>
      let r := processList strict contain_suffix rest d1
      ⟨r.dest, w ++ r.warnings, r.err⟩

/-- Lines 28–31: `if osp.exists(backup_dir): shutil.rmtree(backup_dir)`
then `os.makedirs(backup_dir, exist_ok=True)` — whatever the
destination held before the call, it is empty when copying starts. -/
def resetDest (_initDest : List (List String)) : List (List String) := []

/-- `backup(backup_dir, backup_list, logger, contain_suffix, strict)`.
`hasLogger` records whether a logger was supplied; with the default
`logger=None` the unconditional `logger.info(...)` on line 33 raises
`AttributeError` right after the destination reset and before any
source is processed.  The best-effort companion-version imports are
swallowed by their `try`/`except` and have no modelled effect.
`initDest` is the destination content left by a previous call. -/
def backup (hasLogger : Bool) (contain_suffix : List String) (strict : Bool)
    (backup_list : List Source) (initDest : List (List String)) : BackupResult :=
  let dest0 := resetDest initDest
  if !hasLogger then ⟨dest0, [], some .attributeError⟩
  else processList strict contain_suffix backup_list dest0

/-! ## Claim theorems -/

/-- Claim C3 (code_bug evidence): on the spec's own scenario — a root
listing `a.py`, `b.txt`, `.hidden.py` and the subdirectory `sub` —
`scan(root, suffix=".py", recursive=True)` does not yield
`{"a.py", "sub/c.py"}`: consuming the generator raises `TypeError`,
because the recursive `_scandir` call omits the required positional
argument `prefix`.  The error fires at the first hidden or directory
entry, so the subtree `sub/c.py` is never reached. -/
theorem scan_recursive_raises_type_error :
    scandir none (some [".py"]) true
      [⟨"a.py", true⟩, ⟨"b.txt", true⟩, ⟨".hidden.py", true⟩, ⟨"sub", false⟩] =
      .error .typeError := rfl

/-- Claim C2 (code_bug evidence): a directory source containing only
`a.txt`, backed up with the default `contain_suffix=["*.py"]`, raises
`KeyError("*.py")` at `ignore_suffix.remove(suffix)` — the allowed
pattern was never observed in the subtree, and `set.remove` errors on
an absent element instead of being a no-op. -/
theorem backup_unobserved_suffix_key_error :
    backup true ["*.py"] false
      [⟨"srcdir", true, false, true, [⟨["a.txt"], false⟩]⟩] [] =
      ⟨[], [], some (.keyError "*.py")⟩ := rfl

/-- Claim C4 (code_bug evidence): with no logger supplied, `backup`
always raises `AttributeError` at the unconditional `logger.info(...)`
of line 33 — after the destination reset, before any source is
processed — whatever the sources, suffix list, strict flag and prior
destination content are. -/
theorem backup_no_logger_attribute_error
    (contain_suffix : List String) (strict : Bool)
    (backup_list : List Source) (initDest : List (List String)) :
    backup false contain_suffix strict backup_list initDest =
      ⟨[], [], some .attributeError⟩ := rfl

/-- Claim C7: running `backup` a second time with the same arguments,
starting from the destination content the first run produced, yields
exactly the first run's result: the pre-existing destination is
destroyed (`shutil.rmtree`) and recreated before copying, so the
outcome never depends on the prior destination content. -/
theorem backup_destination_idempotent
    (hasLogger : Bool) (contain_suffix : List String) (strict : Bool)
    (backup_list : List Source) (initDest : List (List String)) :
    backup hasLogger contain_suffix strict backup_list
        (backup hasLogger contain_suffix strict backup_list initDest).dest =
      backup hasLogger contain_suffix strict backup_list initDest := rfl

/-- Splitting the backup loop: processing `l1 ++ l2` runs `l1` first
and continues with `l2` from the destination `l1` left, unless `l1`
already raised. -/
lemma processList_append (strict : Bool) (sfx : List String)
    (l1 l2 : List Source) (d : List (List String)) :
    processList strict sfx (l1 ++ l2) d =
      let r1 := processList strict sfx l1 d
      if r1.err.isSome then r1
      else
        let r2 := processList strict sfx l2 r1.dest
        ⟨r2.dest, r1.warnings ++ r2.warnings, r2.err⟩ := by
  induction l1 generalizing d with
  | nil => simp [processList]
  | cons s l1' ih =>
    simp only [List.cons_append, processList]
    rcases hp : processOne strict sfx s d with ⟨d1, w, oe⟩
    cases oe with
    | some e => simp
    | none =>
      simp only [List.append_eq]
      rw [ih d1]
      by_cases h1 : (processList strict sfx l1' d1).err.isSome <;>
        simp [h1, List.append_assoc]

/-- Claim C5: with `strict=True` and `pre ++ [s] ++ post` as the source
list, where processing `pre` raises nothing and `s` does not exist,
`backup` raises `FileExistsError("<s.name> not exist")` (the code's
missing-source error) naming that path; the destination holds exactly
what processing `pre` copied — sources after `s` contribute nothing,
sources before it stay copied, and no rollback happens. -/
theorem backup_strict_missing_source
    (contain_suffix : List String) (pre post : List Source) (s : Source)
    (initDest : List (List String))
    (hmiss : s.pres = false)
    (hpre : (processList true contain_suffix pre []).err = none) :
    backup true contain_suffix true (pre ++ s :: post) initDest =
      ⟨(processList true contain_suffix pre []).dest,
       (processList true contain_suffix pre []).warnings,
       some (.fileExistsError s.name)⟩ := by
  unfold backup resetDest
  simp only [Bool.not_true, Bool.false_eq_true, if_neg, ite_false]
  rw [processList_append]
  simp [hpre, processList, processOne, hmiss]

/-- Claim C5 witness: a concrete strict backup with an existing file
source, then a missing source, then a further file source: the first
file is copied, the error names the missing path, the last source is
never processed. -/
theorem backup_strict_missing_source_witness :
    backup true ["*.py"] true
      [⟨"m.py", true, true, false, []⟩, ⟨"gone", false, false, false, []⟩,
       ⟨"late.py", true, true, false, []⟩] [] =
      ⟨[["m.py"]], [], some (.fileExistsError "gone")⟩ := by
  exact backup_strict_missing_source ["*.py"] [⟨"m.py", true, true, false, []⟩]
    [⟨"late.py", true, true, false, []⟩] ⟨"gone", false, false, false, []⟩ [] rfl rfl

/-- Claim C6: with `strict=False`, a nonexistent source (on which
`osp.isfile` and `osp.isdir` are both false) leaves no trace: the
destination and the raised error are exactly those of the same backup
with that source deleted from the list — the remaining sources are
processed in order as if it were absent — and, whenever processing
reaches it (the sources before it raise nothing), the warning
`"<name> not exist"` is emitted. -/
theorem backup_nonstrict_missing_source
    (contain_suffix : List String) (pre post : List Source) (s : Source)
    (initDest : List (List String))
    (hmiss : s.pres = false) (hfile : s.isFile = false) (hdir : s.isDir = false) :
    (backup true contain_suffix false (pre ++ s :: post) initDest).dest =
        (backup true contain_suffix false (pre ++ post) initDest).dest ∧
      (backup true contain_suffix false (pre ++ s :: post) initDest).err =
        (backup true contain_suffix false (pre ++ post) initDest).err ∧
      ((processList false contain_suffix pre []).err = none →
        (s.name ++ " not exist") ∈
          (backup true contain_suffix false (pre ++ s :: post) initDest).warnings) := by
  unfold backup resetDest
  simp only [Bool.not_true, Bool.false_eq_true, if_neg, ite_false]
  rw [processList_append, processList_append]
  by_cases h1 : (processList false contain_suffix pre []).err.isSome
  · refine ⟨by simp [h1], by simp [h1], fun hnone => ?_⟩
    rw [hnone] at h1
    simp at h1
  · simp only [h1, if_false, Bool.false_eq_true, ite_false]
    refine ⟨?_, ?_, fun _ => ?_⟩
    · simp [processList, processOne, hmiss, hfile, hdir]
    · simp [processList, processOne, hmiss, hfile, hdir]
    · simp [processList, processOne, hmiss, hfile, hdir, List.mem_append]

/-- Claim C6 witness: one missing source `gone` between two file
sources, non-strict: destination and error agree with the run that
omits `gone`, and the warning is emitted. -/
theorem backup_nonstrict_missing_source_witness :
    (backup true ["*.py"] false
        [⟨"m.py", true, true, false, []⟩, ⟨"gone", false, false, false, []⟩,
         ⟨"n.py", true, true, false, []⟩] []).dest =
      (backup true ["*.py"] false
        [⟨"m.py", true, true, false, []⟩, ⟨"n.py", true, true, false, []⟩] []).dest ∧
      (backup true ["*.py"] false
        [⟨"m.py", true, true, false, []⟩, ⟨"gone", false, false, false, []⟩,
         ⟨"n.py", true, true, false, []⟩] []).err =
      (backup true ["*.py"] false
        [⟨"m.py", true, true, false, []⟩, ⟨"n.py", true, true, false, []⟩] []).err ∧
      ("gone not exist") ∈
        (backup true ["*.py"] false
          [⟨"m.py", true, true, false, []⟩, ⟨"gone", false, false, false, []⟩,
           ⟨"n.py", true, true, false, []⟩] []).warnings := by
  have h := backup_nonstrict_missing_source ["*.py"] [⟨"m.py", true, true, false, []⟩]
    [⟨"n.py", true, true, false, []⟩] ⟨"gone", false, false, false, []⟩ [] rfl rfl rfl
  exact ⟨h.1, h.2.1, h.2.2 rfl⟩

/-- Claim C1 (counterexample): for the tree holding `a.py` and the
extensionless file `README`, with `allowedSuffixes=["*.py"]`, the
directory copy keeps `README` as well — the destination is not
"exactly the files whose extension matches a pattern in E": `README`
matches no allowed pattern yet is copied, because the ignore list only
ever contains extension patterns observed in the subtree and `README`
has none. -/
theorem backup_dir_copy_not_exactly_allowed :
    dirCopyFiles [⟨["a.py"], false⟩, ⟨["README"], false⟩] ["*.py"] =
        .ok [["a.py"], ["README"]] ∧
      specAllowedFiles [⟨["a.py"], false⟩, ⟨["README"], false⟩] ["*.py"] =
        [["a.py"]] ∧
      ¬ (["README"] ∈ specAllowedFiles
        [⟨["a.py"], false⟩, ⟨["README"], false⟩] ["*.py"]) :=
  ⟨rfl, rfl, by decide⟩

/-- Membership in the seen-accumulator dedup. -/
lemma mem_dedupF (l : List String) :
    ∀ (seen : List String) (a : String), a ∈ dedupF l seen ↔ a ∈ l ∧ a ∉ seen := by
  induction l with
  | nil => simp [dedupF]
  | cons x xs ih =>
    intro seen a
    by_cases hx : x ∈ seen
    · simp only [dedupF, if_pos hx, ih, List.mem_cons]
      constructor
      · rintro ⟨ha, hns⟩; exact ⟨Or.inr ha, hns⟩
      · rintro ⟨rfl | ha, hns⟩
        · exact absurd hx hns
        · exact ⟨ha, hns⟩
    · simp only [dedupF, if_neg hx, List.mem_cons, ih]
      constructor
      · rintro (rfl | ⟨ha, hns⟩)
        · exact ⟨Or.inl rfl, hx⟩
        · exact ⟨Or.inr ha, fun hc => hns (Or.inr hc)⟩
      · rintro ⟨rfl | ha, hns⟩
        · exact Or.inl rfl
        · by_cases hax : a = x
          · exact Or.inl hax
          · exact Or.inr ⟨ha, fun hc => hns (Or.elim hc (fun h' => absurd h' hax) id)⟩

/-- The seen-accumulator dedup has no duplicates. -/
lemma nodup_dedupF (l : List String) : ∀ seen : List String, (dedupF l seen).Nodup := by
  induction l with
  | nil => intro _; simp [dedupF]
  | cons x xs ih =>
    intro seen
    by_cases hx : x ∈ seen
    · simpa [dedupF, if_pos hx] using ih seen
    · simp only [dedupF, if_neg hx]
      refine List.nodup_cons.mpr ⟨fun hc => ?_, ih (x :: seen)⟩
      exact ((mem_dedupF xs (x :: seen) x).mp hc).2 (.head _)

/-- The Python `ignore_suffix` set is duplicate-free. -/
lemma nodup_globObserved (entries : List FEntry) : (globObserved entries).Nodup :=
  nodup_dedupF _ []

/-- When every removal succeeds, the `for suffix in contain_suffix:
ignore_suffix.remove(suffix)` loop computes exactly the set
difference observed-minus-allowed. -/
lemma removeAll_ok_mem :
    ∀ (xs s t : List String), s.Nodup → removeAll xs s = .ok t →
      ∀ a, a ∈ t ↔ a ∈ s ∧ a ∉ xs := by
  intro xs
  induction xs with
  | nil =>
    intro s t _ h a
    cases h
    simp
  | cons x xs' ih =>
    intro s t hs h a
    simp only [removeAll] at h
    by_cases hx : x ∈ s
    · rw [if_pos hx] at h
      have := ih (s.erase x) t (hs.erase x) h a
      rw [this, List.Nodup.mem_erase_iff hs]
      constructor
      · rintro ⟨⟨hax, has⟩, hnx⟩
        refine ⟨has, fun hc => ?_⟩
        cases List.mem_cons.mp hc with
        | inl h' => exact hax h'
        | inr h' => exact hnx h'
      · rintro ⟨has, hnx⟩
        exact ⟨⟨fun hc => hnx (hc ▸ .head _), has⟩, fun hc => hnx (.tail _ hc)⟩
    · rw [if_neg hx] at h
      cases h

/-- Claim C1 (amended): when the removal loop succeeds (every allowed
pattern occurs among the observed ones), the directory copy contains
exactly the files of the subtree none of whose path components matches
an observed-but-not-allowed extension pattern.  Files whose extension
pattern is not observed by the glob (extensionless files, files only
reachable through hidden components) are therefore also copied. -/
theorem backup_dir_copy_characterization
    (entries : List FEntry) (contain_suffix : List String)
    (l : List (List String))
    (h : dirCopyFiles entries contain_suffix = .ok l) (p : List String) :
    p ∈ l ↔ ∃ e, e ∈ entries ∧ e.path = p ∧ e.isDir = false ∧
      ∀ c ∈ p, ∀ pat, pat ∈ globObserved entries → pat ∉ contain_suffix →
        fnmatchStar pat c = false := by
  revert h
  unfold dirCopyFiles
  cases hr : removeAll contain_suffix (globObserved entries) with
  | error pat => intro h; exact absurd h (by simp)
  | ok ign =>
    intro h
    injection h with h
    subst h
    have hign : ∀ a, a ∈ ign ↔ a ∈ globObserved entries ∧ a ∉ contain_suffix :=
      removeAll_ok_mem _ _ _ (nodup_globObserved entries) hr
    simp only [List.mem_map, List.mem_filter, Bool.and_eq_true, Bool.not_eq_true',
      survives, List.all_eq_true]
    constructor
    · rintro ⟨e, ⟨he, hdir, hsurv⟩, rfl⟩
      refine ⟨e, he, rfl, hdir, fun c hc pat hobs hnot => ?_⟩
      have := hsurv c hc pat ((hign pat).mpr ⟨hobs, hnot⟩)
      simpa using this
    · rintro ⟨e, he, rfl, hdir, hsurv⟩
      refine ⟨e, ⟨he, hdir, fun c hc pat hpat => ?_⟩, rfl⟩
      have := hsurv c hc pat ((hign pat).mp hpat).1 ((hign pat).mp hpat).2
      simpa using this

/-- Claim C1 (amended) witness: the tree `{a.py, b.txt}` with allowed
suffixes `["*.py"]` copies to exactly `[a.py]`, and the
characterization instantiates at `a.py`. -/
theorem backup_dir_copy_characterization_witness :
    ["a.py"] ∈ [(["a.py"] : List String)] ↔
      ∃ e, e ∈ [(⟨["a.py"], false⟩ : FEntry), ⟨["b.txt"], false⟩] ∧
        e.path = ["a.py"] ∧ e.isDir = false ∧
        ∀ c ∈ ["a.py"], ∀ pat,
          pat ∈ globObserved [(⟨["a.py"], false⟩ : FEntry), ⟨["b.txt"], false⟩] →
          pat ∉ ["*.py"] → fnmatchStar pat c = false :=
  backup_dir_copy_characterization
    [⟨["a.py"], false⟩, ⟨["b.txt"], false⟩] ["*.py"] [["a.py"]] rfl ["a.py"]

/-- Claim C9 (counterexample): with `dst` existing as a directory and
`overwrite=True`, `symlink` does not remove `dst` and create a link —
`os.remove` raises `IsADirectoryError` and the filesystem is left
unchanged, so the claim's "first removes dst and then creates a new
link at dst pointing at src" fails for this existing `dst`. -/
theorem symlink_overwrite_dir_cex :
    symlink "s" "d" true [("d", .dir)] = ([("d", .dir)], some .isADirectory) ∧
      fsGet (symlink "s" "d" true [("d", .dir)]).1 "d" ≠ some (.link "s") :=
  ⟨rfl, by decide⟩

/-- The `if/elif` yield chain of `_scandir` is the conjunction of the
prefix condition and the suffix condition, each vacuous when its
filter is absent. -/
lemma yieldCheck_eq_and (pfx sfx : Option (List String)) (rel : String) :
    yieldCheck pfx sfx rel = (pfxOk pfx rel && sfxOk sfx rel) := by
  cases pfx <;> cases sfx <;> simp [yieldCheck, pfxOk, sfxOk]

/-- Claim C8: with `recursive=False`, `scandir` yields exactly the
direct-child regular files whose name is not hidden (no leading dot)
and whose path relative to the root — the entry name itself — passes
the prefix and suffix conditions, both vacuous when absent; directory
entries are skipped without being traversed or yielded, and nothing is
raised. -/
theorem scandir_nonrecursive_exact (pfx sfx : Option (List String))
    (entries : List SEntry) :
    scandir pfx sfx false entries =
      .ok ((entries.filter (fun e =>
        e.isFile && !isHidden e.name && pfxOk pfx e.name && sfxOk sfx e.name)).map
        (fun e => e.name)) := by
  unfold scandir
  induction entries with
  | nil => rfl
  | cons e rest ih =>
    cases hf : e.isFile <;> cases hh : isHidden e.name <;>
      simp [scandirGo, hf, hh, ih, List.filter_cons, yieldCheck_eq_and]
    cases hp : pfxOk pfx e.name <;> cases hs : sfxOk sfx e.name <;> simp

/-- A path holding an entry lexists. -/
lemma lexists_of_fsGet {fs : LinkFS} {p : String} {e : FsEntry}
    (h : fsGet fs p = some e) : lexists fs p = true := by
  induction fs with
  | nil => simp [fsGet] at h
  | cons q fs' ih =>
    by_cases hq : q.1 = p
    · simp [lexists, hq]
    · simp only [fsGet, List.find?] at h ⊢
      rw [show (decide (q.1 = p)) = false by simp [hq]] at h
      simp only [lexists, List.any_cons]
      rw [show (decide (q.1 = p)) = false by simp [hq]]
      simpa [lexists] using ih (by simpa [fsGet] using h)

/-- After deleting the key, the path no longer lexists. -/
lemma lexists_removeKey (fs : LinkFS) (p : String) :
    lexists (removeKey fs p) p = false := by
  induction fs with
  | nil => simp [lexists, removeKey]
  | cons q fs' ih =>
    by_cases hq : q.1 = p
    · simp only [removeKey] at ih ⊢
      rw [List.filter_cons_of_neg (by simp [hq])]
      exact ih
    · simp only [removeKey] at ih ⊢
      rw [List.filter_cons_of_pos (by simp [hq])]
      simp only [lexists, List.any_cons, Bool.or_eq_false_iff, decide_eq_false hq] at ih ⊢
      exact ⟨trivial, ih⟩

/-- Claim C9 (amended): for `dst` existing as a regular file or a
symbolic link (a stale link included), `symlink(src, dst,
overwrite=True)` removes `dst` and creates a fresh link at `dst`
pointing at `src`; with `overwrite=False` and `dst` existing, the call
raises the filesystem conflict error `FileExistsError` and leaves the
filesystem — in particular `dst` — untouched.  (When `dst` exists as a
directory the overwrite path instead fails in `os.remove`, as the
counterexample shows.) -/
theorem symlink_overwrite_semantics (src dst : String) (fs : LinkFS)
    (h : ∃ e, fsGet fs dst = some e ∧ e ≠ .dir) :
    symlink src dst true fs = ((dst, .link src) :: removeKey fs dst, none) ∧
      symlink src dst false fs = (fs, some .fileExists) := by
  obtain ⟨e, he, hne⟩ := h
  have hl : lexists fs dst = true := lexists_of_fsGet he
  constructor
  · have hrem : osRemove fs dst = (removeKey fs dst, none) := by
      unfold osRemove
      rw [he]
      cases e with
      | file => rfl
      | dir => exact absurd rfl hne
      | link t => rfl
    simp [symlink, hl, hrem, osSymlink, lexists_removeKey]
  · simp [symlink, hl, osSymlink]

/-- Claim C9 witness: `dst` existing as a regular file: overwrite
replaces it with the link, non-overwrite fails with the conflict
error and leaves the file in place. -/
theorem symlink_overwrite_semantics_witness :
    symlink "s" "d" true [("d", FsEntry.file)] = ([("d", .link "s")], none) ∧
      symlink "s" "d" false [("d", FsEntry.file)] =
        ([("d", FsEntry.file)], some .fileExists) :=
  symlink_overwrite_semantics "s" "d" [("d", FsEntry.file)]
    ⟨FsEntry.file, rfl, by decide⟩

/-- The upward chain of the root is just the root. -/
lemma upwardChain_nil : upwardChain [] = [[]] := rfl

/-- Peeling the upward chain: a non-root path is followed by the chain
of its parent (`osp.split(cur)[0]`, i.e. `dropLast`). -/
lemma upwardChain_cons (p : List String) (h : p ≠ []) :
    upwardChain p = p :: upwardChain p.dropLast := by
  obtain ⟨n, hn⟩ : ∃ n, p.length = n + 1 :=
    ⟨p.length - 1, (Nat.succ_pred_eq_of_pos (List.length_pos.mpr h)).symm⟩
  have h1 : p.take (n + 1) = p := by rw [← hn]; exact List.take_length p
  have h2 : ∀ k, k ≤ n → p.dropLast.take k = p.take k := by
    intro k hk
    rw [List.dropLast_eq_take, hn]
    simp only [Nat.add_sub_cancel]
    rw [List.take_take, Nat.min_eq_left hk]
  unfold upwardChain
  rw [hn, List.length_dropLast, hn]
  simp only [Nat.add_sub_cancel]
  rw [List.range_succ, List.reverse_append]
  simp only [List.reverse_singleton, List.singleton_append, List.map_cons, h1]
  refine congrArg (p :: ·) (List.map_congr_left fun k hk => ?_)
  have hk' : k ≤ n := by
    have := List.mem_range.mp (List.mem_reverse.mp hk)
    omega
  exact (h2 k hk').symm

/-- The `while cur != prev:` loop of `find_vcs_root`, run with fuel
`cur.length + 2`, terminates and returns the nearest upward prefix
containing a marker (`none` when there is none).  `pc` is the previous
value of `cur`; it can equal `cur` only at the root, and only after
the root was already checked and found markerless. -/
lemma vcsGo_correct (fs : VFS) (markers : List String) :
    ∀ (fuel : Nat) (cur : List String) (pc : Option (List String)),
      cur.length + 2 ≤ fuel →
      (pc = some cur → cur = [] ∧ hasMarker fs markers [] = false) →
      vcsGo fs markers fuel pc cur = some (nearestRoot fs markers cur) := by
  intro fuel
  induction fuel with
  | zero => intro cur pc hfuel _; omega
  | succ f ih =>
    intro cur pc hfuel hpc
    by_cases hprev : pc = some cur
    · obtain ⟨hc, hm⟩ := hpc hprev
      subst hc
      simp [vcsGo, hprev, nearestRoot, upwardChain_nil, hm]
    · by_cases hmk : hasMarker fs markers cur = true
      · simp only [vcsGo, if_neg hprev, hmk, if_pos]
        by_cases hnil : cur = []
        · subst hnil
          simp [nearestRoot, upwardChain_nil, hmk]
        · rw [nearestRoot, upwardChain_cons cur hnil, List.find?_cons_of_pos _ hmk]
      · simp only [vcsGo, if_neg hprev, hmk, Bool.false_eq_true, if_false]
        by_cases hnil : cur = []
        · subst hnil
          simp only [List.dropLast_nil]
          obtain ⟨f', rfl⟩ : ∃ f', f = f' + 1 := ⟨f - 1, by omega⟩
          simp [vcsGo, nearestRoot, upwardChain_nil, hmk]
        · have hlen : cur.dropLast.length + 2 ≤ f := by
            rw [List.length_dropLast]
            have : 1 ≤ cur.length := List.length_pos.mpr hnil
            omega
          have hpc' : some cur = some cur.dropLast →
              cur.dropLast = [] ∧ hasMarker fs markers [] = false := by
            intro he
            injection he with he
            have : cur.dropLast.length = cur.length - 1 := List.length_dropLast cur
            have : cur.length ≤ cur.length - 1 := by rw [← this, ← he]
            have : 1 ≤ cur.length := List.length_pos.mpr hnil
            omega
          rw [ih cur.dropLast (some cur) hlen hpc']
          simp only [nearestRoot]
          rw [upwardChain_cons cur hnil, List.find?_cons_of_neg _ (by simp [hmk])]

/-- Claim C10: `find_vcs_root` terminates on every input — the loop
replacing `cur` by its parent reaches the fixpoint at the filesystem
root within `|start| + 2` iterations — and returns the nearest upward
prefix (starting from the path itself, or from its parent directory
when the path is a regular file) that contains one of the marker
names, or `None` when no such prefix exists. -/
theorem find_vcs_root_terminates_correct (fs : VFS) (markers : List String)
    (path : List String) :
    find_vcs_root fs markers path =
      some (nearestRoot fs markers
        (if fs.isfile path then path.dropLast else path)) := by
  unfold find_vcs_root
  by_cases hf : fs.isfile path = true
  · simp only [hf, if_pos]
    exact vcsGo_correct fs markers _ _ none (Nat.le_refl _) (fun h => absurd h (by simp))
  · simp only [hf, Bool.false_eq_true, if_false]
    exact vcsGo_correct fs markers _ _ none (Nat.le_refl _) (fun h => absurd h (by simp))

end Gorilla
